import Mathlib

/-!
Verification of the recording engine of `demo-automation/generate-demo-video.py`
(the `TerminalRecorder` class): the virtual-clock event timeline, the typing
simulator, the color formatter, and the asciicast serializer.

The Python class is shallowly embedded: the mutable recorder object becomes a
`TerminalRecorder` structure passed and returned explicitly; Python floats for
the virtual clock are modelled as exact rationals (`ℚ`); the JSON lines written
by `save_asciicast` are modelled at the structured-record level (one `Record`
per emitted line), abstracting over the JSON text encoding.
-/

namespace VibeSec

/-- State of `TerminalRecorder` (`generate-demo-video.py`, lines 33-37):
`width`, `height`, the list `events` of `(timestamp, channel, payload)`
triples, and the virtual clock `current_time` starting at `0.0`. -/
structure TerminalRecorder where
  width : Nat
  height : Nat
  events : List (ℚ × String × String)
  current_time : ℚ
deriving DecidableEq

/-- `TerminalRecorder.__init__(self, width=80, height=24)`. -/
def TerminalRecorder.init (width : Nat := 80) (height : Nat := 24) : TerminalRecorder :=
  { width := width, height := height, events := [], current_time := 0 }

/-- `TerminalRecorder.write` (lines 39-43): `if delay > 0: self.current_time += delay`,
then `self.events.append((self.current_time, "o", text))`. -/
def TerminalRecorder.write (r : TerminalRecorder) (text : String) (delay : ℚ := 0) :
    TerminalRecorder :=
  let t := if 0 < delay then r.current_time + delay else r.current_time
  { r with current_time := t, events := r.events ++ [(t, "o", text)] }

/-- `TerminalRecorder.type_text` (lines 45-48): `for char in text: self.write(char, typing_speed)`. -/
def TerminalRecorder.type_text (r : TerminalRecorder) (text : String)
    (typing_speed : ℚ := 0.05) : TerminalRecorder :=
  text.data.foldl (fun s c => s.write (String.mk [c]) typing_speed) r

/-- `TerminalRecorder.pause` (lines 50-52): `self.current_time += duration`. -/
def TerminalRecorder.pause (r : TerminalRecorder) (duration : ℚ) : TerminalRecorder :=
  { r with current_time := r.current_time + duration }

/-- `TerminalRecorder.clear_screen` (lines 54-56): `self.write("\033[2J\033[H")`
(the default `delay=0` applies). -/
def TerminalRecorder.clear_screen (r : TerminalRecorder) : TerminalRecorder :=
  r.write "\x1b[2J\x1b[H"

/-- The inline `colors` dict of `TerminalRecorder.color` (lines 60-69),
as an association list in source order. -/
def colorTable : List (String × String) :=
  [("red", "\x1b[0;31m"),
   ("green", "\x1b[0;32m"),
   ("yellow", "\x1b[1;33m"),
   ("blue", "\x1b[0;34m"),
   ("purple", "\x1b[0;35m"),
   ("cyan", "\x1b[0;36m"),
   ("bold", "\x1b[1m"),
   ("reset", "\x1b[0m")]

/-- `TerminalRecorder.color` (lines 58-70):
`f"{colors.get(color_code, '')}{text}{colors['reset']}"`. It touches no
recorder state, so it is embedded as a plain function of its two arguments. -/
def TerminalRecorder.color (text : String) (color_code : String) : String :=
  (colorTable.lookup color_code).getD "" ++ text ++ (colorTable.lookup "reset").getD ""

/-- One line of the asciicast v2 output of `save_asciicast` (lines 72-86),
at the structured-record level: the first line is the JSON header object
`{version, width, height, timestamp, title, env}`, every further line is the
JSON array `[timestamp, event_type, data]`. -/
inductive Record where
  | header (version width height : Nat) (timestamp : Int)
      (title : String) (env : List (String × String))
  | event (timestamp : ℚ) (channel : String) (payload : String)
deriving DecidableEq

/-- `TerminalRecorder.save_asciicast` (lines 72-86): one header record built
from the fixed constant `2`, the recorder's dimensions, the wall clock `now`
(`int(time.time())` is an effect, passed in as a parameter), the fixed title
and env; then one record per stored event, in stored order. -/
def TerminalRecorder.save_asciicast (r : TerminalRecorder) (now : Int) : List Record :=
  Record.header 2 r.width r.height now "VibeSec Demo"
      [("SHELL", "/bin/bash"), ("TERM", "xterm-256color")]
    :: r.events.map (fun e => Record.event e.1 e.2.1 e.2.2)

/-- Parse a list of serialized event records back into `(timestamp, channel,
payload)` triples; fails on any record that is not an event record. -/
def decodeEvents : List Record → Option (List (ℚ × String × String))
  | [] => some []
  | Record.event t ch p :: rest => (decodeEvents rest).map (fun l => (t, ch, p) :: l)
  | Record.header _ _ _ _ _ _ :: _ => none

/-- One call of a caller-driven script against the recorder: the four
event-producing operations of `TerminalRecorder`. -/
inductive Op where
  | write (text : String) (delay : ℚ)
  | type_text (text : String) (typing_speed : ℚ)
  | pause (duration : ℚ)
  | clear_screen
deriving DecidableEq

/-- Interpret one `Op` against a recorder state. -/
def applyOp (r : TerminalRecorder) : Op → TerminalRecorder
  | Op.write text delay => r.write text delay
  | Op.type_text text speed => r.type_text text speed
  | Op.pause duration => r.pause duration
  | Op.clear_screen => r.clear_screen

/-- Run a whole script (list of operations) from a recorder state. -/
def run (r : TerminalRecorder) (ops : List Op) : TerminalRecorder :=
  ops.foldl applyOp r

/-- Every delay/duration argument of the operation is non-negative. -/
def Op.nonneg : Op → Prop
  | Op.write _ delay => 0 ≤ delay
  | Op.type_text _ speed => 0 ≤ speed
  | Op.pause duration => 0 ≤ duration
  | Op.clear_screen => True

instance (op : Op) : Decidable op.nonneg := by
  cases op <;> (unfold Op.nonneg) <;> infer_instance

/-- The virtual clock value after each prefix of the script, from the empty
prefix to the whole script. -/
def clockHistory (w h : Nat) (ops : List Op) : List ℚ :=
  (List.range (ops.length + 1)).map
    (fun n => (run (TerminalRecorder.init w h) (ops.take n)).current_time)

/-- Every event stored so far was emitted on the output channel `"o"`. -/
def outputOnly (r : TerminalRecorder) : Prop := ∀ e ∈ r.events, e.2.1 = "o"

/-- The stored events have non-decreasing timestamps in append order. -/
def eventsSorted (r : TerminalRecorder) : Prop :=
  List.Chain' (fun a b => a.1 ≤ b.1) r.events

/-- Every stored event's timestamp is at most the current virtual clock. -/
def eventsBounded (r : TerminalRecorder) : Prop :=
  ∀ e ∈ r.events, e.1 ≤ r.current_time

/-! ### Helper lemmas about `write` -/

lemma TerminalRecorder.write_pos (r : TerminalRecorder) (text : String) {d : ℚ}
    (h : 0 < d) :
    r.write text d =
      { r with current_time := r.current_time + d,
               events := r.events ++ [(r.current_time + d, "o", text)] } := by
  simp [TerminalRecorder.write, if_pos h]

lemma TerminalRecorder.write_nonpos (r : TerminalRecorder) (text : String) {d : ℚ}
    (h : ¬ 0 < d) :
    r.write text d =
      { r with events := r.events ++ [(r.current_time, "o", text)] } := by
  simp [TerminalRecorder.write, if_neg h]

lemma TerminalRecorder.write_time_nonneg (r : TerminalRecorder) (text : String) {d : ℚ}
    (h : 0 ≤ d) : (r.write text d).current_time = r.current_time + d := by
  rcases lt_or_eq_of_le h with hlt | heq
  · rw [r.write_pos text hlt]
  · rw [r.write_nonpos text (by rw [← heq]; exact lt_irrefl 0)]
    simp [← heq]

lemma TerminalRecorder.write_events_nonneg (r : TerminalRecorder) (text : String) {d : ℚ}
    (h : 0 ≤ d) :
    (r.write text d).events = r.events ++ [(r.current_time + d, "o", text)] := by
  rcases lt_or_eq_of_le h with hlt | heq
  · rw [r.write_pos text hlt]
  · rw [r.write_nonpos text (by rw [← heq]; exact lt_irrefl 0)]
    simp [← heq]

lemma TerminalRecorder.write_events_self (r : TerminalRecorder) (text : String) (d : ℚ) :
    (r.write text d).events
      = r.events ++ [((r.write text d).current_time, "o", text)] := rfl

lemma TerminalRecorder.write_time_le (r : TerminalRecorder) (text : String) (d : ℚ) :
    r.current_time ≤ (r.write text d).current_time := by
  by_cases h : 0 < d
  · rw [r.write_pos text h]; dsimp only; linarith
  · rw [r.write_nonpos text h]

lemma TerminalRecorder.write_width (r : TerminalRecorder) (text : String) (d : ℚ) :
    (r.write text d).width = r.width := rfl

lemma TerminalRecorder.write_height (r : TerminalRecorder) (text : String) (d : ℚ) :
    (r.write text d).height = r.height := rfl

/-! ### Helper lemmas about `type_text` (the character fold) -/

lemma TerminalRecorder.foldl_write_time (d : ℚ) (h : 0 ≤ d) (cs : List Char)
    (r : TerminalRecorder) :
    (cs.foldl (fun s c => s.write (String.mk [c]) d) r).current_time
      = r.current_time + cs.length * d := by
  induction cs generalizing r with
  | nil => simp
  | cons c cs ih =>
    rw [List.foldl_cons, ih, r.write_time_nonneg (String.mk [c]) h, List.length_cons]
    push_cast
    ring

lemma TerminalRecorder.foldl_write_events (d : ℚ) (cs : List Char)
    (r : TerminalRecorder) :
    ∃ ts : List (ℚ × String × String),
      (cs.foldl (fun s c => s.write (String.mk [c]) d) r).events = r.events ++ ts ∧
      ts.map (fun e => e.2.2) = cs.map (fun c => String.mk [c]) := by
  induction cs generalizing r with
  | nil => exact ⟨[], by simp, by simp⟩
  | cons c cs ih =>
    obtain ⟨ts, h1, h2⟩ := ih (r.write (String.mk [c]) d)
    refine ⟨((r.write (String.mk [c]) d).current_time, "o", String.mk [c]) :: ts, ?_, ?_⟩
    · rw [List.foldl_cons, h1, (r.write_events_self (String.mk [c]) d)]
      simp
    · simp [h2]

lemma TerminalRecorder.foldl_write_width (d : ℚ) (cs : List Char)
    (r : TerminalRecorder) :
    (cs.foldl (fun s c => s.write (String.mk [c]) d) r).width = r.width := by
  induction cs generalizing r with
  | nil => rfl
  | cons c cs ih => rw [List.foldl_cons, ih]; rfl

lemma TerminalRecorder.foldl_write_height (d : ℚ) (cs : List Char)
    (r : TerminalRecorder) :
    (cs.foldl (fun s c => s.write (String.mk [c]) d) r).height = r.height := by
  induction cs generalizing r with
  | nil => rfl
  | cons c cs ih => rw [List.foldl_cons, ih]; rfl

lemma TerminalRecorder.foldl_write_time_le (d : ℚ) (cs : List Char)
    (r : TerminalRecorder) :
    r.current_time ≤ (cs.foldl (fun s c => s.write (String.mk [c]) d) r).current_time := by
  induction cs generalizing r with
  | nil => exact le_refl _
  | cons c cs ih =>
    rw [List.foldl_cons]
    exact le_trans (r.write_time_le (String.mk [c]) d) (ih _)

lemma TerminalRecorder.type_text_eq_foldl (r : TerminalRecorder) (text : String) (d : ℚ) :
    r.type_text text d = text.data.foldl (fun s c => s.write (String.mk [c]) d) r := rfl

/-! ### Run-level invariants -/

lemma applyOp_width (r : TerminalRecorder) (op : Op) : (applyOp r op).width = r.width := by
  cases op with
  | write text delay => rfl
  | type_text text speed =>
    exact TerminalRecorder.foldl_write_width speed text.data r
  | pause duration => rfl
  | clear_screen => rfl

lemma applyOp_height (r : TerminalRecorder) (op : Op) : (applyOp r op).height = r.height := by
  cases op with
  | write text delay => rfl
  | type_text text speed =>
    exact TerminalRecorder.foldl_write_height speed text.data r
  | pause duration => rfl
  | clear_screen => rfl

lemma run_width (r : TerminalRecorder) (ops : List Op) : (run r ops).width = r.width := by
  induction ops generalizing r with
  | nil => rfl
  | cons op ops ih =>
    show (run (applyOp r op) ops).width = r.width
    rw [ih, applyOp_width]

lemma run_height (r : TerminalRecorder) (ops : List Op) : (run r ops).height = r.height := by
  induction ops generalizing r with
  | nil => rfl
  | cons op ops ih =>
    show (run (applyOp r op) ops).height = r.height
    rw [ih, applyOp_height]

lemma TerminalRecorder.write_outputOnly (r : TerminalRecorder) (text : String) (d : ℚ)
    (h : outputOnly r) : outputOnly (r.write text d) := by
  intro e he
  rw [r.write_events_self text d, List.mem_append] at he
  rcases he with he | he
  · exact h e he
  · simp at he; simp [he]

lemma applyOp_outputOnly (r : TerminalRecorder) (op : Op) (h : outputOnly r) :
    outputOnly (applyOp r op) := by
  cases op with
  | write text delay => exact r.write_outputOnly text delay h
  | type_text text speed =>
    show outputOnly (text.data.foldl (fun s c => s.write (String.mk [c]) speed) r)
    induction text.data generalizing r with
    | nil => exact h
    | cons c cs ih =>
      rw [List.foldl_cons]
      exact ih _ (r.write_outputOnly (String.mk [c]) speed h)
  | pause duration => exact h
  | clear_screen => exact r.write_outputOnly _ 0 h

lemma run_outputOnly (r : TerminalRecorder) (ops : List Op) (h : outputOnly r) :
    outputOnly (run r ops) := by
  induction ops generalizing r with
  | nil => exact h
  | cons op ops ih =>
    exact ih (applyOp r op) (applyOp_outputOnly r op h)

lemma TerminalRecorder.write_sorted (r : TerminalRecorder) (text : String) (d : ℚ)
    (hs : eventsSorted r) (hb : eventsBounded r) :
    eventsSorted (r.write text d) ∧ eventsBounded (r.write text d) := by
  have hle := r.write_time_le text d
  constructor
  · unfold eventsSorted
    rw [r.write_events_self text d]
    refine List.Chain'.append hs (List.chain'_singleton _) ?_
    intro x hx y hy
    simp only [List.head?_cons, Option.mem_def, Option.some_inj] at hy
    obtain ⟨hne, hxl⟩ := List.mem_getLast?_eq_getLast hx
    have hxmem : x ∈ r.events := hxl ▸ List.getLast_mem hne
    subst hy
    exact le_trans (hb x hxmem) hle
  · intro e he
    rw [r.write_events_self text d, List.mem_append] at he
    rcases he with he | he
    · exact le_trans (hb e he) hle
    · simp only [List.mem_singleton] at he
      simp [he]

lemma applyOp_time_le (r : TerminalRecorder) (op : Op) (h : op.nonneg) :
    r.current_time ≤ (applyOp r op).current_time := by
  cases op with
  | write text delay => exact r.write_time_le text delay
  | type_text text speed => exact TerminalRecorder.foldl_write_time_le speed text.data r
  | pause duration =>
    show r.current_time ≤ r.current_time + duration
    have : 0 ≤ duration := h
    linarith
  | clear_screen => exact r.write_time_le _ 0

lemma applyOp_sorted (r : TerminalRecorder) (op : Op) (h : op.nonneg)
    (hs : eventsSorted r) (hb : eventsBounded r) :
    eventsSorted (applyOp r op) ∧ eventsBounded (applyOp r op) := by
  cases op with
  | write text delay => exact r.write_sorted text delay hs hb
  | type_text text speed =>
    show eventsSorted (text.data.foldl (fun s c => s.write (String.mk [c]) speed) r) ∧
      eventsBounded (text.data.foldl (fun s c => s.write (String.mk [c]) speed) r)
    induction text.data generalizing r with
    | nil => exact ⟨hs, hb⟩
    | cons c cs ih =>
      rw [List.foldl_cons]
      obtain ⟨hs', hb'⟩ := r.write_sorted (String.mk [c]) speed hs hb
      exact ih _ hs' hb'
  | pause duration =>
    refine ⟨hs, fun e he => ?_⟩
    have hd : 0 ≤ duration := h
    have : e.1 ≤ r.current_time := hb e he
    show e.1 ≤ r.current_time + duration
    linarith
  | clear_screen => exact r.write_sorted _ 0 hs hb

lemma run_sorted (r : TerminalRecorder) (ops : List Op) (h : ∀ op ∈ ops, op.nonneg)
    (hs : eventsSorted r) (hb : eventsBounded r) :
    eventsSorted (run r ops) ∧ eventsBounded (run r ops) := by
  induction ops generalizing r with
  | nil => exact ⟨hs, hb⟩
  | cons op ops ih =>
    obtain ⟨hs', hb'⟩ :=
      applyOp_sorted r op (h op (List.mem_cons_self op ops)) hs hb
    exact ih (applyOp r op) (fun o ho => h o (List.mem_cons_of_mem op ho)) hs' hb'

lemma run_append (r : TerminalRecorder) (l₁ l₂ : List Op) :
    run r (l₁ ++ l₂) = run (run r l₁) l₂ := by
  unfold run
  exact List.foldl_append applyOp r l₁ l₂

/-! ### Claim theorems -/

/-- C1, counterexample: a negative `duration` passed to `pause` is not rejected
with an invalid-argument error — it rewinds the virtual clock below its previous
value — and a negative `delay` passed to `write` is not rejected either — it
still appends an event, so the event list does not stay unchanged. -/
theorem negative_args_are_not_rejected :
    ((TerminalRecorder.init 80 24).pause (-1)).current_time
        < (TerminalRecorder.init 80 24).current_time ∧
    ((TerminalRecorder.init 80 24).write "A" (-1)).events
        ≠ (TerminalRecorder.init 80 24).events := by
  constructor
  · norm_num [TerminalRecorder.pause, TerminalRecorder.init]
  · norm_num [TerminalRecorder.write, TerminalRecorder.init]

/-- C1, amended: neither `write` nor `pause` validates its argument. For a
negative `delay`, `write` silently treats the delay as zero — the clock is
unchanged and the event is still appended at the current clock — and for a
negative `duration`, `pause` silently rewinds the clock by adding the negative
value; no invalid-argument error is raised in either case. -/
theorem write_pause_negative_silent (r : TerminalRecorder) (text : String) (d : ℚ)
    (hd : d < 0) :
    (r.write text d).current_time = r.current_time ∧
    (r.write text d).events = r.events ++ [(r.current_time, "o", text)] ∧
    (r.pause d).current_time = r.current_time + d ∧
    (r.pause d).current_time < r.current_time := by
  have h : ¬ 0 < d := by linarith
  refine ⟨?_, ?_, rfl, ?_⟩
  · rw [r.write_nonpos text h]
  · rw [r.write_nonpos text h]
  · show r.current_time + d < r.current_time
    linarith

/-- Witness for `write_pause_negative_silent` at `d = -1`. -/
theorem write_pause_negative_silent_witness :
    (-1 : ℚ) < 0 ∧
    (((TerminalRecorder.init 80 24).write "A" (-1)).current_time
        = (TerminalRecorder.init 80 24).current_time ∧
     ((TerminalRecorder.init 80 24).write "A" (-1)).events
        = (TerminalRecorder.init 80 24).events
            ++ [((TerminalRecorder.init 80 24).current_time, "o", "A")] ∧
     ((TerminalRecorder.init 80 24).pause (-1)).current_time
        = (TerminalRecorder.init 80 24).current_time + (-1) ∧
     ((TerminalRecorder.init 80 24).pause (-1)).current_time
        < (TerminalRecorder.init 80 24).current_time) :=
  ⟨by norm_num,
   write_pause_negative_silent (TerminalRecorder.init 80 24) "A" (-1) (by norm_num)⟩

/-- C3: for a strictly positive delay, `write` first advances the virtual clock
by the delay and then appends exactly one event stamped at the advanced clock
with the given payload; concretely, `write("A", 0.05)` from a fresh recorder
produces a single event at timestamp `0.05`, not `0.0`. -/
theorem write_delay_before_visibility (r : TerminalRecorder) (text : String) (d : ℚ)
    (hd : 0 < d) :
    ((r.write text d).current_time = r.current_time + d ∧
     (r.write text d).events = r.events ++ [(r.current_time + d, "o", text)]) ∧
    ((TerminalRecorder.init 80 24).write "A" 0.05).events
      = [((0.05 : ℚ), "o", "A")] := by
  refine ⟨⟨?_, ?_⟩, ?_⟩
  · rw [r.write_pos text hd]
  · rw [r.write_pos text hd]
  · norm_num [TerminalRecorder.write, TerminalRecorder.init]

/-- Witness for `write_delay_before_visibility` at `d = 0.05`. -/
theorem write_delay_before_visibility_witness :
    (0 : ℚ) < 0.05 ∧
    ((((TerminalRecorder.init 80 24).write "A" 0.05).current_time
        = (TerminalRecorder.init 80 24).current_time + 0.05 ∧
      ((TerminalRecorder.init 80 24).write "A" 0.05).events
        = (TerminalRecorder.init 80 24).events
            ++ [((TerminalRecorder.init 80 24).current_time + 0.05, "o", "A")]) ∧
     ((TerminalRecorder.init 80 24).write "A" 0.05).events
        = [((0.05 : ℚ), "o", "A")]) :=
  ⟨by norm_num,
   write_delay_before_visibility (TerminalRecorder.init 80 24) "A" 0.05 (by norm_num)⟩

/-- C5: for a non-negative duration, `pause` advances the virtual clock by
exactly that duration and appends no event; concretely, from a fresh recorder,
`pause(2.0)` followed by `write("X", 0)` yields exactly one event, at
timestamp `2.0`. -/
theorem pause_advances_clock_only (r : TerminalRecorder) (d : ℚ) (_hd : 0 ≤ d) :
    ((r.pause d).current_time = r.current_time + d ∧ (r.pause d).events = r.events) ∧
    (((TerminalRecorder.init 80 24).pause 2).write "X" 0).events
      = [((2 : ℚ), "o", "X")] := by
  refine ⟨⟨rfl, rfl⟩, ?_⟩
  norm_num [TerminalRecorder.write, TerminalRecorder.pause, TerminalRecorder.init]

/-- Witness for `pause_advances_clock_only` at `d = 2`. -/
theorem pause_advances_clock_only_witness :
    (0 : ℚ) ≤ 2 ∧
    ((((TerminalRecorder.init 80 24).pause 2).current_time
        = (TerminalRecorder.init 80 24).current_time + 2 ∧
      ((TerminalRecorder.init 80 24).pause 2).events
        = (TerminalRecorder.init 80 24).events) ∧
     (((TerminalRecorder.init 80 24).pause 2).write "X" 0).events
        = [((2 : ℚ), "o", "X")]) :=
  ⟨by norm_num, pause_advances_clock_only (TerminalRecorder.init 80 24) 2 (by norm_num)⟩

/-- C7: `clear_screen()` is exactly `write("\x1b[2J\x1b[H", 0)`: it appends one
event carrying the clear-and-home escape sequence at the current clock value
and does not advance the clock. -/
theorem clear_screen_equiv_write (r : TerminalRecorder) :
    r.clear_screen = r.write "\x1b[2J\x1b[H" 0 ∧
    r.clear_screen.events = r.events ++ [(r.current_time, "o", "\x1b[2J\x1b[H")] ∧
    r.clear_screen.current_time = r.current_time := by
  have h := r.write_nonpos "\x1b[2J\x1b[H" (lt_irrefl 0)
  refine ⟨rfl, ?_, ?_⟩
  · show (r.write "\x1b[2J\x1b[H" 0).events = _
    rw [h]
  · show (r.write "\x1b[2J\x1b[H" 0).current_time = _
    rw [h]

/-- C10: `"reset"` is itself a key of the color lookup table, so
`color(text, "reset")` produces an opening reset code as well:
the result is `"\x1b[0m" ++ text ++ "\x1b[0m"`. -/
theorem color_reset_is_found_key (text : String) :
    TerminalRecorder.color text "reset" = "\x1b[0m" ++ text ++ "\x1b[0m" := rfl

/-- C6, counterexample: `"reset"` is outside the claim's name set
`{red, green, yellow, blue, purple, cyan, bold}`, so the claim predicts
`color("OK", "reset") = "OK" ++ "\x1b[0m"`; the code instead finds `"reset"`
in its lookup table and returns `"\x1b[0m" ++ "OK" ++ "\x1b[0m"`. -/
theorem color_unknown_name_claim_fails_on_reset :
    TerminalRecorder.color "OK" "reset" ≠ "OK" ++ "\x1b[0m" ∧
    TerminalRecorder.color "OK" "reset" = "\x1b[0m" ++ "OK" ++ "\x1b[0m" :=
  ⟨by decide, rfl⟩

/-- C6, amended: for each of the seven color/style names the result is the
opening SGR code, then the text, then the reset code; the lookup table also
contains the key `"reset"`, which behaves like a found name with the reset
code as its opening code; only a name outside these eight keys falls back to
the text followed by the reset code with no opening code. -/
theorem color_lookup_contract (text name : String) :
    (name = "red" →
      TerminalRecorder.color text name = "\x1b[0;31m" ++ text ++ "\x1b[0m") ∧
    (name = "green" →
      TerminalRecorder.color text name = "\x1b[0;32m" ++ text ++ "\x1b[0m") ∧
    (name = "yellow" →
      TerminalRecorder.color text name = "\x1b[1;33m" ++ text ++ "\x1b[0m") ∧
    (name = "blue" →
      TerminalRecorder.color text name = "\x1b[0;34m" ++ text ++ "\x1b[0m") ∧
    (name = "purple" →
      TerminalRecorder.color text name = "\x1b[0;35m" ++ text ++ "\x1b[0m") ∧
    (name = "cyan" →
      TerminalRecorder.color text name = "\x1b[0;36m" ++ text ++ "\x1b[0m") ∧
    (name = "bold" →
      TerminalRecorder.color text name = "\x1b[1m" ++ text ++ "\x1b[0m") ∧
    (name = "reset" →
      TerminalRecorder.color text name = "\x1b[0m" ++ text ++ "\x1b[0m") ∧
    (name ∉ ["red", "green", "yellow", "blue", "purple", "cyan", "bold", "reset"] →
      TerminalRecorder.color text name = text ++ "\x1b[0m") := by
  refine ⟨?_, ?_, ?_, ?_, ?_, ?_, ?_, ?_, ?_⟩
  any_goals (rintro rfl; rfl)
  intro h
  simp only [List.mem_cons, List.not_mem_nil, or_false, not_or] at h
  obtain ⟨h1, h2, h3, h4, h5, h6, h7, h8⟩ := h
  unfold TerminalRecorder.color
  have hnone : colorTable.lookup name = none := by
    simp [colorTable, List.lookup, beq_eq_false_iff_ne.mpr h1,
      beq_eq_false_iff_ne.mpr h2, beq_eq_false_iff_ne.mpr h3,
      beq_eq_false_iff_ne.mpr h4, beq_eq_false_iff_ne.mpr h5,
      beq_eq_false_iff_ne.mpr h6, beq_eq_false_iff_ne.mpr h7,
      beq_eq_false_iff_ne.mpr h8]
  rw [hnone]
  rfl

/-- Witness for `color_lookup_contract`: a found name (`"green"`) and a missing
name (`"magenta"`) at `text = "OK"`. -/
theorem color_lookup_contract_witness :
    TerminalRecorder.color "OK" "green" = "\x1b[0;32m" ++ "OK" ++ "\x1b[0m" ∧
    TerminalRecorder.color "OK" "magenta" = "OK" ++ "\x1b[0m" :=
  ⟨(color_lookup_contract "OK" "green").2.1 rfl,
   (color_lookup_contract "OK" "magenta").2.2.2.2.2.2.2.2 (by decide)⟩

/-- C4: `type_text(s, d)` with a non-negative per-character delay leaves the
existing events in place, appends exactly `s.length` events whose payloads are
the single characters of `s` in source order, and advances the virtual clock by
exactly `s.length * d` (so the empty string appends nothing and adds zero). -/
theorem type_text_typing_cost (r : TerminalRecorder) (s : String) (d : ℚ)
    (hd : 0 ≤ d) :
    (r.type_text s d).current_time = r.current_time + s.length * d ∧
    (r.type_text s d).events.length = r.events.length + s.length ∧
    (r.type_text s d).events.take r.events.length = r.events ∧
    ((r.type_text s d).events.drop r.events.length).map (fun e => e.2.2)
      = s.data.map (fun c => String.mk [c]) := by
  obtain ⟨ts, h1, h2⟩ := TerminalRecorder.foldl_write_events d s.data r
  have hlen : ts.length = s.data.length := by
    have := congrArg List.length h2
    simpa using this
  have hst : (r.type_text s d).events = r.events ++ ts := h1
  refine ⟨?_, ?_, ?_, ?_⟩
  · rw [TerminalRecorder.type_text_eq_foldl,
      TerminalRecorder.foldl_write_time d hd s.data r]
    rfl
  · rw [hst, List.length_append, hlen]
    rfl
  · rw [hst, List.take_left]
  · rw [hst, List.drop_left, h2]

/-- Witness for `type_text_typing_cost` at `s = "hi"`, `d = 0.05`. -/
theorem type_text_typing_cost_witness :
    (0 : ℚ) ≤ 0.05 ∧
    (((TerminalRecorder.init 80 24).type_text "hi" 0.05).current_time
        = (TerminalRecorder.init 80 24).current_time
            + (String.length "hi") * 0.05 ∧
     ((TerminalRecorder.init 80 24).type_text "hi" 0.05).events.length
        = (TerminalRecorder.init 80 24).events.length + (String.length "hi") ∧
     ((TerminalRecorder.init 80 24).type_text "hi" 0.05).events.take
          (TerminalRecorder.init 80 24).events.length
        = (TerminalRecorder.init 80 24).events ∧
     (((TerminalRecorder.init 80 24).type_text "hi" 0.05).events.drop
          (TerminalRecorder.init 80 24).events.length).map (fun e => e.2.2)
        = ("hi" : String).data.map (fun c => String.mk [c])) :=
  ⟨by norm_num,
   type_text_typing_cost (TerminalRecorder.init 80 24) "hi" 0.05 (by norm_num)⟩

lemma decodeEvents_map (l : List (ℚ × String × String)) :
    decodeEvents (l.map (fun e => Record.event e.1 e.2.1 e.2.2)) = some l := by
  induction l with
  | nil => rfl
  | cons e l ih => simp [decodeEvents, ih]

/-- C2: for any script of `write`/`pause`/`type_text`/`clear_screen` calls from
a fresh recorder in which every delay and duration is non-negative, the stored
event timestamps are non-decreasing in append order, and the virtual clock is
non-decreasing across every step of the script. -/
theorem timeline_monotone (w h : Nat) (ops : List Op)
    (hops : ∀ op ∈ ops, op.nonneg) :
    List.Chain' (fun a b => a.1 ≤ b.1) (run (TerminalRecorder.init w h) ops).events ∧
    List.Chain' (fun a b => a ≤ b) (clockHistory w h ops) := by
  constructor
  · refine (run_sorted (TerminalRecorder.init w h) ops hops ?_ ?_).1
    · exact List.chain'_nil
    · intro e he
      simp [TerminalRecorder.init] at he
  · unfold clockHistory
    rw [List.chain'_map]
    refine (List.chain'_range_succ _ ops.length).mpr ?_
    intro m hm
    show (run (TerminalRecorder.init w h) (ops.take m)).current_time
      ≤ (run (TerminalRecorder.init w h) (ops.take (m + 1))).current_time
    rw [← List.take_concat_get ops m hm, List.concat_eq_append, run_append]
    exact applyOp_time_le _ ops[m] (hops _ (List.getElem_mem hm))

/-- Witness for `timeline_monotone` on a small concrete script. -/
theorem timeline_monotone_witness :
    (∀ op ∈ [Op.write "$ " 0.5, Op.type_text "ls" 0.05, Op.pause 2,
        Op.clear_screen], op.nonneg) ∧
    (List.Chain' (fun a b => a.1 ≤ b.1)
        (run (TerminalRecorder.init 80 24)
          [Op.write "$ " 0.5, Op.type_text "ls" 0.05, Op.pause 2,
           Op.clear_screen]).events ∧
     List.Chain' (fun a b => a ≤ b)
        (clockHistory 80 24
          [Op.write "$ " 0.5, Op.type_text "ls" 0.05, Op.pause 2,
           Op.clear_screen])) := by
  have hops : ∀ op ∈ [Op.write "$ " 0.5, Op.type_text "ls" 0.05, Op.pause 2,
      Op.clear_screen], op.nonneg := by
    intro op hop
    simp only [List.mem_cons, List.not_mem_nil, or_false] at hop
    rcases hop with rfl | rfl | rfl | rfl
    · show (0 : ℚ) ≤ 0.5; norm_num
    · show (0 : ℚ) ≤ 0.05; norm_num
    · show (0 : ℚ) ≤ 2; norm_num
    · trivial
  exact ⟨hops, timeline_monotone 80 24 _ hops⟩

/-- C8: for any script run from a fresh recorder of the given dimensions,
serialization emits first a header record whose `width` and `height` equal the
constructor arguments and whose `version` is the constant `2`, followed by one
event record per stored event. -/
theorem save_asciicast_header_fidelity (w h : Nat) (ops : List Op) (now : Int) :
    (run (TerminalRecorder.init w h) ops).save_asciicast now
      = Record.header 2 w h now "VibeSec Demo"
            [("SHELL", "/bin/bash"), ("TERM", "xterm-256color")]
        :: (run (TerminalRecorder.init w h) ops).events.map
            (fun e => Record.event e.1 e.2.1 e.2.2) := by
  unfold TerminalRecorder.save_asciicast
  rw [run_width, run_height]
  rfl

/-- C9: the records after the header are exactly one `[timestamp, "o", payload]`
record per stored event, in stored order — every stored event's channel is the
output tag `"o"` — and parsing those records back recovers exactly the original
`(timestamp, channel, payload)` triples, in order, with no loss or reordering. -/
theorem save_asciicast_roundtrip (w h : Nat) (ops : List Op) (now : Int) :
    ((run (TerminalRecorder.init w h) ops).save_asciicast now).tail
        = (run (TerminalRecorder.init w h) ops).events.map
            (fun e => Record.event e.1 e.2.1 e.2.2) ∧
    (∀ e ∈ (run (TerminalRecorder.init w h) ops).events, e.2.1 = "o") ∧
    decodeEvents (((run (TerminalRecorder.init w h) ops).save_asciicast now).tail)
        = some (run (TerminalRecorder.init w h) ops).events := by
  refine ⟨rfl, ?_, ?_⟩
  · refine run_outputOnly (TerminalRecorder.init w h) ops ?_
    intro e he
    simp [TerminalRecorder.init] at he
  · show decodeEvents ((run (TerminalRecorder.init w h) ops).events.map
        (fun e => Record.event e.1 e.2.1 e.2.2)) = _
    exact decodeEvents_map _

end VibeSec
